import Mathlib

/-!
Verification development for the `jcli` command-tree dispatcher
(clir-derived variant: `cli.go`, `flagset.go`, the `Command` file and the
flag-accessor file of the repository).

Shallow embedding conventions:
* Go pointers used as caller-supplied flag storage are modelled as cells of a
  `Heap` (an association list `Nat → FlagVal`); a flag declared without
  external storage gets a call-local cell held inside the call's
  `FlagValues` layer, exactly mirroring `flagSet.parseFlags`.
* `context.Context` is modelled as a record `Ctx` with one optional field per
  reserved key (`FlagValuesKey`, `StdoutKey`, `PrintJsonKey`, `QuietKey`);
  `context.WithValue` on one of those keys is a record update (newest value
  shadows older ones, as in Go).
* Output is an event trace.  Plain `Printf` output is `OutData.text`; the
  bytes produced by `PrintHelp` and by the flag package's usage message on a
  parse error are abstracted as the events `OutData.helpFor path` and
  `OutData.flagUsage path` (their exact glyphs are irrelevant to every claim,
  but the fact and the place of the rendering are recorded).
* Go `error` values are the inductive `GoErr`; `nil` is `Option.none`.
* `float64` payloads are modelled by their source text after a simplified
  syntactic validity check (no claim exercises float arithmetic); `int`
  parsing models the decimal form of `strconv.ParseInt(s, 0, 64)` with the
  64-bit range check; `bool` parsing models `strconv.ParseBool` exactly.
* Go object identity (pointer equality, used only by the default-command
  guard in `Command.run`) is modelled by a `Nat` id carried by every
  `Command`; parent pointers are modelled contextually by passing each node's
  ancestor chain (nearest first), which is what `commandPath` and `getCli`
  walk in the source.
-/

/-- Association-list update with map semantics: replaces the entry of an
existing key in place, otherwise appends.  Models assignment into a Go map. -/
def setA {κ α : Type} [DecidableEq κ] : List (κ × α) → κ → α → List (κ × α)
  | [], k, v => [(k, v)]
  | (k', v') :: rest, k, v =>
    if k' = k then (k, v) :: rest else (k', v') :: setA rest k v

/-- Association-list lookup (first match).  Models reading a Go map. -/
def lookupA {κ α : Type} [DecidableEq κ] : List (κ × α) → κ → Option α
  | [], _ => none
  | (k', v) :: rest, k => if k' = k then some v else lookupA rest k

/-- The four flag kinds supported by `flagProto.addFlag`. -/
inductive FKind : Type
  | str
  | int
  | float
  | bool
deriving DecidableEq

/-- A flag value.  `other` stands for any Go value whose dynamic type is none
of the four supported kinds (the `switch` in `flagProto.addFlag` has no case
for it).  `float` carries the source text of the float (see file header). -/
inductive FlagVal : Type
  | str (s : String)
  | int (n : Int)
  | float (s : String)
  | bool (b : Bool)
  | other
deriving DecidableEq

/-- The kind of a flag value; `none` for an unsupported value. -/
def kindOf : FlagVal → Option FKind
  | .str _ => some .str
  | .int _ => some .int
  | .float _ => some .float
  | .bool _ => some .bool
  | .other => none

/-- A parsed-flag storage cell: either the call-local cell allocated by
`flags.String`/`Int`/`Float64`/`Bool` (named by the flag's name inside the
call's `FlagValues`), or the caller-supplied external pointer (a heap cell). -/
inductive Cell : Type
  | loc
  | ext (p : Nat)
deriving DecidableEq

/-- The mutable memory reachable through caller-supplied flag pointers. -/
abbrev Heap := List (Nat × FlagVal)

def heapSet (h : Heap) (p : Nat) (v : FlagVal) : Heap := setA h p v

def heapGet (h : Heap) (p : Nat) : Option FlagVal := lookupA h p

/-- One flag declaration (`flagProto`).  `ptr` is the optional external
storage: the static type of the Go pointer and the cell it designates. -/
structure FlagProto : Type where
  name : String
  description : String
  value : FlagVal
  ptr : Option (FKind × Nat)
deriving DecidableEq

/-- `flagSet.protos`: a name-keyed map of declarations. -/
abbrev FlagSet := List (String × FlagProto)

/-- `flagSet.addFlag`: `fs.protos[name] = &flagProto{...}` — last write wins. -/
def addFlag (fs : FlagSet) (name description : String) (val : FlagVal)
    (ptr : Option (FKind × Nat)) : FlagSet :=
  setA fs name ⟨name, description, val, ptr⟩

/-- `flagSet.flagCount`. -/
def flagCount (fs : FlagSet) : Nat := fs.length

/-- An output destination: the process stdout or an in-memory buffer
(`bytes.Buffer`) identified by a `Nat`. -/
inductive OutTarget : Type
  | std
  | buf (id : Nat)
deriving DecidableEq

/-- One unit of output.  `text` is ordinary `Printf` output; `helpFor` and
`flagUsage` abstract the bytes of `PrintHelp` and of the flag package's
error/usage message (see file header). -/
inductive OutData : Type
  | text (s : String)
  | helpFor (path : String)
  | flagUsage (path : String)
deriving DecidableEq

structure OutEv : Type where
  target : OutTarget
  data : OutData
deriving DecidableEq

/-- The value stored under `FlagValuesKey` by a successful `parseFlags`:
the name → cell map (`vals`), the contents of this call's local cells after
parsing, and the residual positional arguments (`flags.Args()`). -/
structure FlagValues : Type where
  values : List (String × Cell)
  locals : List (String × FlagVal)
  residual : List String
deriving DecidableEq

/-- The execution scope: a `context.Context` restricted to the four reserved
keys the package uses.  A missing field is an absent key. -/
structure Ctx : Type where
  flagVals : Option FlagValues := none
  stdout : Option Nat := none
  printJson : Option Bool := none
  quiet : Option Bool := none
deriving DecidableEq

/-- `Stdout(ctx)` as a destination: the buffer registered under `StdoutKey`,
or the process stdout. -/
def writerOf (ctx : Ctx) : OutTarget :=
  match ctx.stdout with
  | some b => .buf b
  | none => .std

/-- A bound parser variable (`flag.FlagSet.formal` entry): its kind and the
cell that receives its value. -/
structure BoundFlag : Type where
  kind : FKind
  cell : Cell
deriving DecidableEq

/-- Does the external pointer's static type match the default's kind?
Models the `ptr, ok := fp.ptr.(*string)` type assertions (with `ok && ptr !=
nil`); a missing or type-mismatched pointer falls back to a fresh cell. -/
def ptrMatches (k : FKind) : Option (FKind × Nat) → Option Nat
  | some (k', p) => if k' = k then some p else none
  | none => none

/-- `flagProto.addFlag`: bind one declaration into the parser.  Extends the
formal map and either writes the default into the external cell (`StringVar`
and friends do that at registration time) or allocates a call-local cell
initialised to the default.  A declaration whose default is not one of the
four supported kinds registers nothing (no `switch` case matches). -/
def bindProto (fp : FlagProto) :
    List (String × BoundFlag) × List (String × FlagVal) × Heap →
    List (String × BoundFlag) × List (String × FlagVal) × Heap
  | (formal, locals, h) =>
    match kindOf fp.value with
    | none => (formal, locals, h)
    | some k =>
      match ptrMatches k fp.ptr with
      | some p => (formal ++ [(fp.name, ⟨k, .ext p⟩)], locals, heapSet h p fp.value)
      | none => (formal ++ [(fp.name, ⟨k, .loc⟩)], locals ++ [(fp.name, fp.value)], h)

/-- Bind every declaration of a schema (`for _, proto := range fs.protos`). -/
def bindFlags (fs : FlagSet) (h : Heap) :
    List (String × BoundFlag) × List (String × FlagVal) × Heap :=
  fs.foldl (fun acc p => bindProto p.2 acc) ([], [], h)

/-- `strconv.ParseBool`, used both by `flag.boolValue.Set` and by the
bare-`--flag` case which sets `"true"`. -/
def parseBoolStr (s : String) : Option Bool :=
  if s = "1" ∨ s = "t" ∨ s = "T" ∨ s = "TRUE" ∨ s = "true" ∨ s = "True" then some true
  else if s = "0" ∨ s = "f" ∨ s = "F" ∨ s = "FALSE" ∨ s = "false" ∨ s = "False" then some false
  else none

def digitsToNat (l : List Char) : Nat :=
  l.foldl (fun n c => 10 * n + (c.toNat - 48)) 0

/-- Decimal form of `strconv.ParseInt(s, 0, 64)` with the 64-bit range check
(base prefixes and digit underscores are not modelled; no claim uses them). -/
def parseIntStr (s : String) : Option Int :=
  let core : List Char → Bool → Option Int := fun ds neg =>
    if ds = [] ∨ ¬ ds.all Char.isDigit then none
    else
      let v : Int := Int.ofNat (digitsToNat ds)
      let v := if neg then -v else v
      if -(2 ^ 63) ≤ v ∧ v ≤ 2 ^ 63 - 1 then some v else none
  match s.toList with
  | '-' :: rest => core rest true
  | '+' :: rest => core rest false
  | l => core l false

/-- Simplified decimal-float syntax check (sign, digits, optional fraction,
optional exponent); accepted floats are carried as their source text. -/
def floatSyntaxOk (l : List Char) : Bool :=
  let digits := fun (ds : List Char) => !ds.isEmpty && ds.all Char.isDigit
  let unsigned := fun (m : List Char) =>
    let mant := m.takeWhile (fun c => c.isDigit || c = '.')
    let expo := m.drop mant.length
    let intPart := mant.takeWhile Char.isDigit
    let fracTail := mant.drop intPart.length
    let mantOk : Bool :=
      match fracTail with
      | [] => !intPart.isEmpty
      | '.' :: fr => (!intPart.isEmpty || !fr.isEmpty) && fr.all Char.isDigit
      | _ => false
    let expOk : Bool :=
      match expo with
      | [] => true
      | e :: tl =>
        (e = 'e' || e = 'E') &&
          (match tl with
           | '+' :: ds => digits ds
           | '-' :: ds => digits ds
           | ds => digits ds)
    mantOk && expOk
  match l with
  | '-' :: rest => unsigned rest
  | '+' :: rest => unsigned rest
  | _ => unsigned l

def parseFloatStr (s : String) : Option String :=
  if floatSyntaxOk s.toList then some s else none

/-- Convert one textual flag argument to a value of the bound kind; `none`
models the `Set` method returning a conversion error. -/
def parsePrim (k : FKind) (s : String) : Option FlagVal :=
  match k with
  | .str => some (.str s)
  | .int => (parseIntStr s).map .int
  | .float => (parseFloatStr s).map .float
  | .bool => (parseBoolStr s).map .bool

/-- A flag-parse failure, as distinguished by the `flag` package:
`unknown` is "flag provided but not defined", `invalidValue` a failed
conversion, `badSyntax` a malformed flag token, `needsArgument` a non-bool
flag at the end of the list, and `helpRequested` is `flag.ErrHelp` (an
undefined `-h` with no registered `h` flag). -/
inductive ParseErr : Type
  | badSyntax (s : String)
  | unknown (name : String)
  | helpRequested
  | invalidValue (kind : FKind) (value name : String)
  | needsArgument (name : String)
deriving DecidableEq

/-- Split a flag body at its first `=` (the loop `for i := 1; ...` in
`parseOne`; the first character is known not to be `=`). -/
def splitEqList : List Char → List Char × Option (List Char)
  | [] => ([], none)
  | c :: rest =>
    if c = '=' then ([], some rest)
    else
      let (nm, v) := splitEqList rest
      (c :: nm, v)

/-- State and outcome of the `parseOne` loop. -/
structure LoopRes : Type where
  locals : List (String × FlagVal)
  heap : Heap
  residual : List String
  err : Option ParseErr
deriving DecidableEq

/-- Write a parsed value into a flag's cell. -/
def setCell (cell : Cell) (name : String) (v : FlagVal)
    (locals : List (String × FlagVal)) (h : Heap) :
    List (String × FlagVal) × Heap :=
  match cell with
  | .loc => (setA locals name v, h)
  | .ext p => (locals, heapSet h p v)

/-- The classification `parseOne` makes of the token at the head of the
argument list: stop at a non-flag token, consume a bare `--` terminator,
reject a malformed flag token, or extract a flag name with its optional
inline `=value`. -/
inductive Tok : Type
  | stop
  | term
  | bad
  | flag (name : String) (value : Option String)
deriving DecidableEq

/-- The token surgery at the top of `parseOne`: a token shorter than two
bytes or not starting with `-` stops the loop; a bare `--` terminates; after
stripping one or two minuses, an empty body or one starting with `-` or `=`
is bad syntax; otherwise the body is split at its first `=` into the flag
name and the optional inline value. -/
def parseTok (s : String) : Tok :=
  match s.toList with
  | c0 :: c1 :: crest =>
    if c0 ≠ '-' then .stop
    else if c1 = '-' ∧ crest = [] then .term
    else
      match (if c1 = '-' then crest else c1 :: crest) with
      | [] => .bad
      | b0 :: brest =>
        if b0 = '-' ∨ b0 = '=' then .bad
        else
          let (nm, vOpt) := splitEqList (b0 :: brest)
          .flag (String.mk nm) (vOpt.map String.mk)
  | _ => .stop

/-- The `flag.FlagSet.Parse` loop (`parseOne` iterated until it stops or
fails).  `residual` is `flags.Args()`: on a normal stop it is the unconsumed
suffix beginning at the first non-flag token (or the suffix after a bare
`--`); after an error its value is never read by the caller. -/
def parseLoop (formal : List (String × BoundFlag)) :
    List String → List (String × FlagVal) → Heap → LoopRes
  | [], locals, h => ⟨locals, h, [], none⟩
  | s :: rest, locals, h =>
    match parseTok s with
    | .stop => ⟨locals, h, s :: rest, none⟩
    | .term => ⟨locals, h, rest, none⟩
    | .bad => ⟨locals, h, s :: rest, some (.badSyntax s)⟩
    | .flag name vOpt =>
      match lookupA formal name with
      | none =>
        if name = "help" ∨ name = "h" then ⟨locals, h, rest, some .helpRequested⟩
        else ⟨locals, h, rest, some (.unknown name)⟩
      | some bf =>
        if bf.kind = FKind.bool then
          match vOpt with
          | some v =>
            match parseBoolStr v with
            | some b =>
              let (l', h') := setCell bf.cell name (.bool b) locals h
              parseLoop formal rest l' h'
            | none => ⟨locals, h, rest, some (.invalidValue .bool v name)⟩
          | none =>
            let (l', h') := setCell bf.cell name (.bool true) locals h
            parseLoop formal rest l' h'
        else
          match vOpt with
          | some v =>
            match parsePrim bf.kind v with
            | some fv =>
              let (l', h') := setCell bf.cell name fv locals h
              parseLoop formal rest l' h'
            | none => ⟨locals, h, rest, some (.invalidValue bf.kind v name)⟩
          | none =>
            match rest with
            | v :: rest2 =>
              match parsePrim bf.kind v with
              | some fv =>
                let (l', h') := setCell bf.cell name fv locals h
                parseLoop formal rest2 l' h'
              | none => ⟨locals, h, rest2, some (.invalidValue bf.kind v name)⟩
            | [] => ⟨locals, h, [], some (.needsArgument name)⟩

/-- `flagSet.parseFlags`: build a one-shot parser from the schema, add the
synthesized `help` flag bound to a fresh call-local cell, parse, and on
success extend the scope with the `FlagValues` layer.  On failure the flag
package prints its error and usage to `Stdout(ctx)` (abstracted as one
`flagUsage` event) and the underlying error is returned unchanged. -/
def parseFlags (fs : FlagSet) (st : Heap) (ctx : Ctx) (path : String)
    (args : List String) : Heap × List OutEv × (Ctx ⊕ ParseErr) :=
  let (formal0, locals0, h0) := bindFlags fs st
  let formal := formal0 ++ [("help", ⟨.bool, .loc⟩)]
  let locals1 := locals0 ++ [("help", .bool false)]
  let r := parseLoop formal args locals1 h0
  match r.err with
  | some e => (r.heap, [⟨writerOf ctx, .flagUsage path⟩], .inr e)
  | none =>
    (r.heap, [],
      .inl { ctx with
              flagVals := some ⟨formal.map (fun p => (p.1, p.2.cell)), r.locals, r.residual⟩ })

/-- `getFlagValues` + the map lookup of `getValuePointer`. -/
def getValueCell (ctx : Ctx) (name : String) : Option (FlagValues × Cell) :=
  match ctx.flagVals with
  | some fv =>
    match lookupA fv.values name with
    | some cell => some (fv, cell)
    | none => none
  | none => none

/-- Dereference a flag cell at accessor time. -/
def derefCell (st : Heap) (fv : FlagValues) (name : String) : Cell → Option FlagVal
  | .loc => lookupA fv.locals name
  | .ext p => heapGet st p

/-- The value behind a flag's cell as seen by an accessor: look the name up
in the call's map, then dereference the stored pointer. -/
def flagValue (st : Heap) (ctx : Ctx) (name : String) : Option FlagVal :=
  match getValueCell ctx name with
  | some (fv, cell) => derefCell st fv name cell
  | none => none

/-- `StringFlag`: dereferenced value, or the caller-supplied fallback when
the name is absent or the stored cell is not a string. -/
def StringFlag (st : Heap) (ctx : Ctx) (name otherwise : String) : String :=
  match flagValue st ctx name with
  | some (.str s) => s
  | _ => otherwise

/-- `IntFlag`. -/
def IntFlag (st : Heap) (ctx : Ctx) (name : String) (otherwise : Int) : Int :=
  match flagValue st ctx name with
  | some (.int n) => n
  | _ => otherwise

/-- `FloatFlag` (float payloads are their source text, see file header). -/
def FloatFlag (st : Heap) (ctx : Ctx) (name otherwise : String) : String :=
  match flagValue st ctx name with
  | some (.float s) => s
  | _ => otherwise

/-- `BoolFlag`. -/
def BoolFlag (st : Heap) (ctx : Ctx) (name : String) (otherwise : Bool) : Bool :=
  match flagValue st ctx name with
  | some (.bool b) => b
  | _ => otherwise

/-- `HelpFlag(ctx)` — the synthesized help flag, default `false`. -/
def HelpFlag (st : Heap) (ctx : Ctx) : Bool := BoolFlag st ctx "help" false

/-- `OtherArgs(ctx)` — the residual positional arguments (`flags.Args()`),
`nil` (here `[]`) when no flag layer is present. -/
def OtherArgs (ctx : Ctx) : List String :=
  match ctx.flagVals with
  | some fv => fv.residual
  | none => []

/-- A Go `error` value as returned by the dispatcher.  `seeHelp e path`
stands for the default wrapping `fmt.Errorf("Error: %s\nSee '%s --help' for
usage", err, commandPath)`; `errHelp` is the reserved sentinel
`ErrHelp = errors.New("jcli: help requested")`; `notSetup` is the
configuration error `"Command not setup correctly"`; `custom` models any
error produced by an action or a user-supplied handler; `fuelExhausted` is a
model artifact never returned when `run` is entered through `Cli.Run`, which
supplies adequate fuel for its bounded recursion. -/
inductive GoErr : Type
  | notSetup
  | errHelp
  | seeHelp (e : ParseErr) (path : String)
  | custom (n : Nat)
  | fuelExhausted
deriving DecidableEq

/-- An action callback: it may read the heap (through the flag accessors
applied to its scope) and returns its output events and its error. -/
def ActionF : Type := Heap → Ctx → List OutEv × Option GoErr

/-- A command node.  Fields mirror the Go struct; `id` models pointer
identity, `hasApp` models a non-nil `app` back-reference (set only on the
root by `NewCli`), and the parent pointer is modelled contextually (each
node's ancestor chain is passed alongside it wherever the source would walk
`parent`). -/
inductive Command : Type
  | mk (id : Nat) (hasApp : Bool) (name shortdescription longdescription : String)
      (subCommands : List Command) (subCommandsMap : List (String × Command))
      (actionCallback : Option ActionF) (hidden : Bool) (flags : FlagSet)

def Command.id : Command → Nat
  | .mk i _ _ _ _ _ _ _ _ _ => i

def Command.hasApp : Command → Bool
  | .mk _ ha _ _ _ _ _ _ _ _ => ha

def Command.name : Command → String
  | .mk _ _ n _ _ _ _ _ _ _ => n

def Command.shortdescription : Command → String
  | .mk _ _ _ sd _ _ _ _ _ _ => sd

def Command.longdescription : Command → String
  | .mk _ _ _ _ ld _ _ _ _ _ => ld

def Command.subCommands : Command → List Command
  | .mk _ _ _ _ _ subs _ _ _ _ => subs

def Command.subCommandsMap : Command → List (String × Command)
  | .mk _ _ _ _ _ _ smap _ _ _ => smap

def Command.actionCallback : Command → Option ActionF
  | .mk _ _ _ _ _ _ _ act _ _ => act

def Command.hidden : Command → Bool
  | .mk _ _ _ _ _ _ _ _ hid _ => hid

def Command.flags : Command → FlagSet
  | .mk _ _ _ _ _ _ _ _ _ fl => fl

/-- `NewCommand`: a fresh node (the `id` argument models the fresh
allocation's identity). -/
def NewCommand (i : Nat) (name description : String) : Command :=
  .mk i false name description "" [] [] none false []

/-- `maxDepth`: the defensive bound on ancestor walks. -/
def maxDepth : Nat := 10

/-- `Command.commandPath`: starting from this node's name, walk at most
`maxDepth` ancestors (nearest first) and prefix each non-empty name. -/
def commandPath (c : Command) (anc : List Command) : String :=
  (anc.take maxDepth).foldl
    (fun pth a => if a.name = "" then pth else a.name ++ " " ++ pth) c.name

/-- `Command.getCli` reduced to its observable outcome in a single-wrapper
model: the wrapper is found exactly when a node with a non-nil `app`
back-reference occurs among the first `maxDepth` nodes of the chain
(this node, then its ancestors). -/
def getCliFound (c : Command) (anc : List Command) : Bool :=
  ((c :: anc).take maxDepth).any Command.hasApp

/-- The result of one `run`: the heap after the call, the output events, the
ids of the nodes whose action callbacks were invoked (ghost instrumentation
recording "the action ran"), and the returned error (`none` is Go `nil`). -/
structure RunRes : Type where
  heap : Heap
  events : List OutEv
  acts : List Nat
  err : Option GoErr

/-- `RunRes` without the heap: the parts of an outcome a caller observes
through the call's own return values. -/
def RunRes.rest (r : RunRes) : List OutEv × List Nat × Option GoErr :=
  (r.events, r.acts, r.err)

/-- `Command.PrintHelp` as events (glyphs abstracted, see file header). -/
def printHelpEvents (c : Command) (anc : List Command) (ctx : Ctx) : List OutEv :=
  [⟨writerOf ctx, .helpFor (commandPath c anc)⟩]

/-- The application wrapper (`Cli`).  `defaultCommand` carries the designated
node together with its ancestor chain (in Go this is one pointer into the
same tree; the chain is what its `parent` links denote).  `bannerFunction`
is not modelled separately: its output is part of the abstracted help
events.  `preRunCommand` is modelled as a pure function of the scope. -/
structure Cli : Type where
  version : String
  rootCommand : Command
  defaultCommand : Option (Command × List Command) := none
  preRunCommand : Option (Ctx → Option GoErr) := none
  errorHandler : Option (String → ParseErr → Option GoErr) := none
  helpHandler : Option ActionF := none

/-- `NewCli`: fresh root command carrying the only non-nil `app` link. -/
def NewCli (i : Nat) (name description version : String) : Cli :=
  { version := version
    rootCommand := .mk i true name description "" [] [] none false [] }

/-- The terminal branch of `Command.run` (steps 8-9): a custom help handler
if registered, else render this node's help and return the `ErrHelp`
sentinel. -/
def terminalHelp (app : Cli) (c : Command) (anc : List Command) (st : Heap)
    (ctx : Ctx) : RunRes :=
  match app.helpHandler with
  | some hh => ⟨st, (hh st ctx).1, [], (hh st ctx).2⟩
  | none => ⟨st, printHelpEvents c anc ctx, [], some .errHelp⟩

/-- `Command.run`.  The `fuel` argument makes the recursion structural: every
recursive call (subcommand descent, default-command hop) decreases it by
one, and `Cli.Run` supplies `args.length + 2`, which is an upper bound on
the actual recursion depth (each descent consumes one argument, and at most
one default hop, which cannot hop again because the guard
`app.defaultCommand != c` then fails, can follow). -/
def Command.run (app : Cli) : Nat → Command → List Command → Heap → Ctx →
    List String → RunRes
  | 0, _, _, st, _, _ => ⟨st, [], [], some .fuelExhausted⟩
  | fuel + 1, c, anc, st, ctx, args =>
    if getCliFound c anc = false then ⟨st, [], [], some .notSetup⟩
    else
      match args with
      | a :: rest =>
        match lookupA c.subCommandsMap a with
        | some child => Command.run app fuel child (c :: anc) st ctx rest
        | none =>
          let path := commandPath c anc
          match parseFlags c.flags st ctx path (a :: rest) with
          | (st', evs, .inr e) =>
            match app.errorHandler with
            | some handler => ⟨st', evs, [], handler path e⟩
            | none => ⟨st', evs, [], some (.seeHelp e path)⟩
          | (st', evs, .inl ctx') =>
            if HelpFlag st' ctx' then ⟨st', evs ++ printHelpEvents c anc ctx', [], none⟩
            else
              match c.actionCallback with
              | some act => ⟨st', evs ++ (act st' ctx').1, [c.id], (act st' ctx').2⟩
              | none =>
                let t := terminalHelp app c anc st' ctx'
                ⟨t.heap, evs ++ t.events, t.acts, t.err⟩
      | [] =>
        match c.actionCallback with
        | some act => ⟨st, (act st ctx).1, [c.id], (act st ctx).2⟩
        | none =>
          match app.defaultCommand with
          | some (d, danc) =>
            if d.id ≠ c.id then Command.run app fuel d danc st ctx []
            else terminalHelp app c anc st ctx
          | none => terminalHelp app c anc st ctx

/-- `Cli.Run`: optional pre-run hook, then root dispatch. -/
def Cli.Run (app : Cli) (st : Heap) (ctx : Ctx) (args : List String) : RunRes :=
  match app.preRunCommand with
  | some pre =>
    match pre ctx with
    | some e => ⟨st, [], [], some e⟩
    | none => Command.run app (args.length + 2) app.rootCommand [] st ctx args
  | none => Command.run app (args.length + 2) app.rootCommand [] st ctx args

/-- The outcome of a buffered run: heap after the call, the data captured by
the call's buffer, the invoked-action ghost trace, and the error. -/
structure BufRes : Type where
  heap : Heap
  out : List OutData
  acts : List Nat
  err : Option GoErr

/-- `Cli.RunBuffer`: set the JSON toggle, redirect the scope's output to a
fresh buffer (`bufId` models the fresh allocation), run, and return what the
buffer captured together with the error. -/
def Cli.RunBuffer (app : Cli) (st : Heap) (ctx : Ctx) (printsJson : Bool)
    (args : List String) (bufId : Nat) : BufRes :=
  let ctx' := { ctx with printJson := some printsJson, stdout := some bufId }
  let r := app.Run st ctx' args
  ⟨r.heap, (r.events.filter (fun e => e.target = OutTarget.buf bufId)).map OutEv.data,
    r.acts, r.err⟩

/-- `Command.AddCommand`: append the child to the ordered list and register
it in the name map (the source also sets `command.parent = c`, which this
model represents by the ancestor chains passed at run/path time). -/
def Command.AddCommand : Command → Command → Command
  | .mk i ha n sd ld subs smap act hid fl, cmd =>
    .mk i ha n sd ld (subs ++ [cmd]) (setA smap cmd.name cmd) act hid fl

/-- `Command.NewSubCommand`: create a fresh node and add it; returns the
updated parent together with the child (the Go method returns the child). -/
def Command.NewSubCommand (c : Command) (i : Nat) (name description : String) :
    Command × Command :=
  (c.AddCommand (NewCommand i name description), NewCommand i name description)

/-- `Command.Action`. -/
def Command.Action : Command → Option ActionF → Command
  | .mk i ha n sd ld subs smap _ hid fl, act => .mk i ha n sd ld subs smap act hid fl

/-- `Command.BoolFlag` (builder); `ptr` is the optional external storage. -/
def Command.BoolFlag : Command → String → String → Bool → Option Nat → Command
  | .mk i ha n sd ld subs smap act hid fl, name, description, val, ptr =>
    .mk i ha n sd ld subs smap act hid
      (addFlag fl name description (.bool val) (ptr.map fun p => (FKind.bool, p)))

/-- `Command.StringFlag` (builder). -/
def Command.StringFlag : Command → String → String → String → Option Nat → Command
  | .mk i ha n sd ld subs smap act hid fl, name, description, val, ptr =>
    .mk i ha n sd ld subs smap act hid
      (addFlag fl name description (.str val) (ptr.map fun p => (FKind.str, p)))

/-- `Command.IntFlag` (builder). -/
def Command.IntFlag : Command → String → String → Int → Option Nat → Command
  | .mk i ha n sd ld subs smap act hid fl, name, description, val, ptr =>
    .mk i ha n sd ld subs smap act hid
      (addFlag fl name description (.int val) (ptr.map fun p => (FKind.int, p)))

/-- `Command.FloatFlag` (builder; the float default is carried as text). -/
def Command.FloatFlag : Command → String → String → String → Option Nat → Command
  | .mk i ha n sd ld subs smap act hid fl, name, description, val, ptr =>
    .mk i ha n sd ld subs smap act hid
      (addFlag fl name description (.float val) (ptr.map fun p => (FKind.float, p)))

/-! ### Helper lemmas about the association-list maps -/

theorem lookupA_mem {κ α : Type} [DecidableEq κ] {l : List (κ × α)} {k : κ} {v : α}
    (h : lookupA l k = some v) : (k, v) ∈ l := by
  induction l with
  | nil => simp [lookupA] at h
  | cons p rest ih =>
    obtain ⟨k', v'⟩ := p
    by_cases hk : k' = k
    · subst hk
      simp [lookupA] at h
      simp [h]
    · simp [lookupA, hk] at h
      exact List.mem_cons_of_mem _ (ih h)

theorem setA_setA {κ α : Type} [DecidableEq κ] (l : List (κ × α)) (k : κ) (a b : α) :
    setA (setA l k a) k b = setA l k b := by
  induction l with
  | nil => simp [setA]
  | cons p rest ih =>
    obtain ⟨k', v'⟩ := p
    by_cases hk : k' = k
    · subst hk
      simp [setA]
    · simp [setA, hk, ih]

theorem mem_setA {κ α : Type} [DecidableEq κ] {l : List (κ × α)} {k : κ} {v : α}
    {p : κ × α} (h : p ∈ setA l k v) : p = (k, v) ∨ p ∈ l := by
  induction l with
  | nil => simpa [setA] using h
  | cons q rest ih =>
    obtain ⟨k', v'⟩ := q
    by_cases hk : k' = k
    · simp only [setA, if_pos hk, List.mem_cons] at h
      rcases h with h' | h'
      · exact Or.inl h'
      · exact Or.inr (List.mem_cons_of_mem _ h')
    · simp only [setA, if_neg hk, List.mem_cons] at h
      rcases h with h' | h'
      · exact Or.inr (by simp [h'])
      · rcases ih h' with h'' | h''
        · exact Or.inl h''
        · exact Or.inr (List.mem_cons_of_mem _ h'')

theorem lookupA_append {κ α : Type} [DecidableEq κ] (l1 l2 : List (κ × α)) (k : κ) :
    lookupA (l1 ++ l2) k =
      match lookupA l1 k with
      | some v => some v
      | none => lookupA l2 k := by
  induction l1 with
  | nil => simp [lookupA]
  | cons p rest ih =>
    obtain ⟨k', v'⟩ := p
    by_cases hk : k' = k
    · simp [lookupA, hk]
    · simp [lookupA, hk, ih]

/-! ### Fixtures from the repository's own test (`TestBasic`) -/

/-- The `TestBasic` schema: a text flag `fmt` (default `""`) and a boolean
flag `ui` (default `false`), neither with external storage. -/
def basicsFS : FlagSet :=
  addFlag (addFlag [] "fmt" "Format" (.str "") none) "ui" "Interactive" (.bool false) none

/-- C4: for the `TestBasic` schema, parsing
`["--ui","--fmt","json","hello","--aaa","bbb"]` (where `hello` matches no
child) succeeds, the boolean accessor for `ui` reads `true`, the string
accessor for `fmt` reads `"json"`, and `OtherArgs` is exactly
`["hello","--aaa","bbb"]`. -/
theorem c4_basic_parse_succeeds :
    ∃ (st' : Heap) (evs : List OutEv) (ctx' : Ctx),
      parseFlags basicsFS [] {} "Basics" ["--ui", "--fmt", "json", "hello", "--aaa", "bbb"]
          = (st', evs, Sum.inl ctx') ∧
        BoolFlag st' ctx' "ui" false = true ∧
        StringFlag st' ctx' "fmt" "???" = "json" ∧
        OtherArgs ctx' = ["hello", "--aaa", "bbb"] := by
  refine ⟨_, _, _, rfl, ?_, ?_, ?_⟩ <;> decide

/-! ### C1 — empty argument lists skip flag parsing -/

/-- An action that reads `fmt` through the string accessor with fallback
`"???"` and prints the result to the scope's output. -/
def c1act : ActionF :=
  fun st ctx => ([⟨writerOf ctx, .text (StringFlag st ctx "fmt" "???")⟩], none)

/-- An application wrapper with a string flag `fmt` whose declared default is
`"json"`, and `c1act` as the root action. -/
def c1app : Cli :=
  { NewCli 0 "Basics" "Test basics" "0" with
    rootCommand :=
      ((NewCli 0 "Basics" "Test basics" "0").rootCommand.StringFlag "fmt" "Format" "json" none).Action
        (some c1act) }

/-- C1 (counterexample): a zero-argument buffered run of `c1app` invokes the
action (ghost trace `[0]`), and the action's accessor reads the fallback
`"???"`, not the declared default `"json"` — so a zero-argument run does
NOT register flag defaults the way a parsed run does. -/
theorem c1_counterexample :
    (Cli.RunBuffer c1app [] {} false [] 7).acts = [0] ∧
      (Cli.RunBuffer c1app [] {} false [] 7).out = [OutData.text "???"] ∧
      (Cli.RunBuffer c1app [] {} false [] 7).out ≠ [OutData.text "json"] := by
  refine ⟨?_, ?_, ?_⟩ <;> decide

/-- C1 (amended): when `run` reaches a node with an empty argument list, no
flag parsing happens at all — the action (when present) is invoked
immediately on the unchanged incoming scope, and when that scope carries no
flag layer every typed accessor returns its caller-supplied fallback instead
of the declared default. -/
theorem c1_empty_args_skip_parse (app : Cli) (fuel : Nat) (c : Command)
    (anc : List Command) (st : Heap) (ctx : Ctx) (act : ActionF)
    (hfound : getCliFound c anc = true)
    (hact : c.actionCallback = some act) :
    Command.run app (fuel + 1) c anc st ctx []
        = ⟨st, (act st ctx).1, [c.id], (act st ctx).2⟩ ∧
      (ctx.flagVals = none →
        (∀ n d, StringFlag st ctx n d = d) ∧
          (∀ n d, IntFlag st ctx n d = d) ∧
          (∀ n d, FloatFlag st ctx n d = d) ∧
          (∀ n d, BoolFlag st ctx n d = d)) := by
  constructor
  · simp [Command.run, hfound, hact]
  · intro hnone
    refine ⟨?_, ?_, ?_, ?_⟩ <;> intro n d <;>
      simp [StringFlag, IntFlag, FloatFlag, BoolFlag, flagValue, getValueCell, hnone]

/-- Witness for `c1_empty_args_skip_parse` at `c1app`'s root. -/
theorem c1_empty_args_skip_parse_witness :
    getCliFound c1app.rootCommand [] = true ∧
      c1app.rootCommand.actionCallback = some c1act ∧
      (Command.run c1app 3 c1app.rootCommand [] [] {} []
          = ⟨[], (c1act [] {}).1, [0], (c1act [] {}).2⟩ ∧
        (Ctx.flagVals {} = none →
          (∀ n d, StringFlag [] {} n d = d) ∧
            (∀ n d, IntFlag [] {} n d = d) ∧
            (∀ n d, FloatFlag [] {} n d = d) ∧
            (∀ n d, BoolFlag [] {} n d = d))) :=
  ⟨by decide, rfl,
    c1_empty_args_skip_parse c1app 2 c1app.rootCommand [] [] {} c1act (by decide) rfl⟩

/-! ### C3 — parse failure aborts the run -/

/-- C3: when flag parsing fails at the node where resolution stopped, `run`
returns the custom error handler's result on the reconstructed command path
and the underlying error if one is registered, and otherwise the default
error embedding the path and the "see --help" hint; either way no action is
invoked (ghost trace empty). -/
theorem c3_parse_failure_aborts (app : Cli) (fuel : Nat) (c : Command)
    (anc : List Command) (st st' : Heap) (ctx : Ctx) (a : String)
    (rest : List String) (evs : List OutEv) (e : ParseErr)
    (hfound : getCliFound c anc = true)
    (hnochild : lookupA c.subCommandsMap a = none)
    (hparse : parseFlags c.flags st ctx (commandPath c anc) (a :: rest)
        = (st', evs, Sum.inr e)) :
    Command.run app (fuel + 1) c anc st ctx (a :: rest)
      = ⟨st', evs, [],
          match app.errorHandler with
          | some handler => handler (commandPath c anc) e
          | none => some (GoErr.seeHelp e (commandPath c anc))⟩ := by
  simp only [Command.run, hfound, Bool.true_eq_false, if_false, hnochild, hparse]
  cases app.errorHandler <;> rfl

/-- Witness for `c3_parse_failure_aborts`: the `TestBasic` failing input
`["--ui","--fmt","json","--xxx","yyy"]` on a root carrying `basicsFS`. -/
def c3app : Cli :=
  { NewCli 0 "Basics" "Test basics" "0" with
    rootCommand :=
      (NewCli 0 "Basics" "Test basics" "0").rootCommand.Action (some c1act) |>.StringFlag
        "fmt" "Format" "" none |>.BoolFlag "ui" "Interactive" false none }

theorem c3_parse_failure_aborts_witness :
    getCliFound c3app.rootCommand [] = true ∧
      lookupA c3app.rootCommand.subCommandsMap "--ui" = (none : Option Command) ∧
      parseFlags c3app.rootCommand.flags [] {} (commandPath c3app.rootCommand [])
          ["--ui", "--fmt", "json", "--xxx", "yyy"]
        = ([], [⟨OutTarget.std, .flagUsage "Basics"⟩], Sum.inr (ParseErr.unknown "xxx")) ∧
      Command.run c3app 6 c3app.rootCommand [] [] {} ["--ui", "--fmt", "json", "--xxx", "yyy"]
        = ⟨[], [⟨OutTarget.std, .flagUsage "Basics"⟩], [],
            match c3app.errorHandler with
            | some handler => handler (commandPath c3app.rootCommand []) (ParseErr.unknown "xxx")
            | none => some (GoErr.seeHelp (ParseErr.unknown "xxx") (commandPath c3app.rootCommand []))⟩ :=
  ⟨by decide, rfl, by decide,
    c3_parse_failure_aborts c3app 5 c3app.rootCommand [] [] [] {} "--ui"
      ["--fmt", "json", "--xxx", "yyy"] [⟨OutTarget.std, .flagUsage "Basics"⟩]
      (ParseErr.unknown "xxx") (by decide) rfl (by decide)⟩

/-! ### C5 — the synthesized help flag takes precedence -/

/-- C5: when parsing succeeds at a node and the synthesized help flag was
set, `run` renders that node's help and returns `nil` (success); no action
is invoked even when one is present. -/
theorem c5_help_flag_precedence (app : Cli) (fuel : Nat) (c : Command)
    (anc : List Command) (st st' : Heap) (ctx ctx' : Ctx) (a : String)
    (rest : List String) (evs : List OutEv)
    (hfound : getCliFound c anc = true)
    (hnochild : lookupA c.subCommandsMap a = none)
    (hparse : parseFlags c.flags st ctx (commandPath c anc) (a :: rest)
        = (st', evs, Sum.inl ctx'))
    (hhelp : HelpFlag st' ctx' = true) :
    Command.run app (fuel + 1) c anc st ctx (a :: rest)
      = ⟨st', evs ++ printHelpEvents c anc ctx', [], none⟩ := by
  simp only [Command.run, hfound, Bool.true_eq_false, if_false, hnochild, hparse, hhelp,
    if_true]

/-- Witness for `c5_help_flag_precedence`: `c3app` (which has a root action)
run on `["--help"]`; the action does not run and `run` returns `nil`. -/
theorem c5_help_flag_precedence_witness :
    getCliFound c3app.rootCommand [] = true ∧
      lookupA c3app.rootCommand.subCommandsMap "--help" = (none : Option Command) ∧
      (∃ st' ctx',
        parseFlags c3app.rootCommand.flags [] {} (commandPath c3app.rootCommand []) ["--help"]
            = (st', [], Sum.inl ctx') ∧
          HelpFlag st' ctx' = true ∧
          Command.run c3app 3 c3app.rootCommand [] [] {} ["--help"]
            = ⟨st', [] ++ printHelpEvents c3app.rootCommand [] ctx', [], none⟩) := by
  refine ⟨by decide, rfl, ?_⟩
  refine ⟨_, _, rfl, by decide, ?_⟩
  exact c5_help_flag_precedence c3app 2 c3app.rootCommand [] [] _ {} _ "--help" [] []
    (by decide) rfl rfl (by decide)

/-! ### C6 — default-command delegation -/

/-- C6: when `run` reaches a node with no action, with an empty argument
list at that point, and the wrapper's default command is set and distinct
from this node, `run` delegates by recursing into the default command with
an empty argument list and returns that call's result. -/
theorem c6_default_command_delegates (app : Cli) (fuel : Nat) (c : Command)
    (anc : List Command) (st : Heap) (ctx : Ctx) (d : Command)
    (danc : List Command)
    (hfound : getCliFound c anc = true)
    (hact : c.actionCallback = none)
    (hdef : app.defaultCommand = some (d, danc))
    (hne : d.id ≠ c.id) :
    Command.run app (fuel + 1) c anc st ctx []
      = Command.run app fuel d danc st ctx [] := by
  simp only [Command.run, hfound, Bool.true_eq_false, if_false, hact, hdef, hne,
    ne_eq, not_false_eq_true, if_true]

/-- The spec's default-command scenario: root `Hello` with no action,
children `hello` and `default`, the latter designated as default command. -/
def helloAct : ActionF :=
  fun st ctx => ([⟨writerOf ctx, .text ("Hello " ++ StringFlag st ctx "name" "???")⟩], none)

def defaultAct : ActionF :=
  fun _ ctx => ([⟨writerOf ctx, .text "This is default"⟩], none)

def helloCmd : Command :=
  ((NewCommand 1 "hello" "Hello").StringFlag "name" "Name" "" none).Action (some helloAct)

def defaultCmd : Command := (NewCommand 2 "default" "Default").Action (some defaultAct)

def helloRoot : Command :=
  (((NewCli 0 "Hello" "Test sub command" "0").rootCommand).AddCommand helloCmd).AddCommand
    defaultCmd

def helloApp : Cli :=
  { NewCli 0 "Hello" "Test sub command" "0" with
    rootCommand := helloRoot
    defaultCommand := some (defaultCmd, [helloRoot]) }

/-- Witness for `c6_default_command_delegates`: a zero-argument run of
`helloApp` delegates to the `default` node (which then prints
`"This is default"`). -/
theorem c6_default_command_delegates_witness :
    getCliFound helloApp.rootCommand [] = true ∧
      helloApp.rootCommand.actionCallback = none ∧
      helloApp.defaultCommand = some (defaultCmd, [helloRoot]) ∧
      defaultCmd.id ≠ helloApp.rootCommand.id ∧
      Command.run helloApp 2 helloApp.rootCommand [] [] {} []
        = Command.run helloApp 1 defaultCmd [helloRoot] [] {} [] :=
  ⟨by decide, rfl, rfl, by decide,
    c6_default_command_delegates helloApp 1 helloApp.rootCommand [] [] {} defaultCmd
      [helloRoot] (by decide) rfl rfl (by decide)⟩

/-! ### C7 — the ErrHelp sentinel at the terminal branch -/

/-- The wrapper's default command does not apply at node `c`: it is unset or
it is this very node (the anti-recursion guard). -/
def DefaultNotApplicable (app : Cli) (c : Command) : Prop :=
  ∀ d danc, app.defaultCommand = some (d, danc) → d.id = c.id

/-- C7: when `run` reaches a node with no action, the default-command
fallback does not apply, and no custom help handler is registered, it
renders that node's help and returns the reserved `ErrHelp` sentinel — a
non-nil value callers can recognize.  The two ways of reaching that branch
(empty argument list, or a successfully parsed non-empty list with the help
flag unset) are both covered. -/
theorem c7_errhelp_sentinel (app : Cli) (fuel : Nat) (c : Command)
    (anc : List Command) (st : Heap) (ctx : Ctx) (args : List String)
    (hfound : getCliFound c anc = true)
    (hact : c.actionCallback = none)
    (hhh : app.helpHandler = none)
    (hcase :
      (args = [] ∧ DefaultNotApplicable app c) ∨
        (∃ a rest stp evs ctxp, args = a :: rest ∧
          lookupA c.subCommandsMap a = none ∧
          parseFlags c.flags st ctx (commandPath c anc) args = (stp, evs, Sum.inl ctxp) ∧
          HelpFlag stp ctxp = false)) :
    (Command.run app (fuel + 1) c anc st ctx args).err = some GoErr.errHelp ∧
      (Command.run app (fuel + 1) c anc st ctx args).err ≠ none ∧
      (∃ w, (⟨w, OutData.helpFor (commandPath c anc)⟩ : OutEv)
          ∈ (Command.run app (fuel + 1) c anc st ctx args).events) ∧
      (Command.run app (fuel + 1) c anc st ctx args).acts = [] := by
  rcases hcase with ⟨hargs, hdna⟩ | ⟨a, rest, stp, evs, ctxp, hargs, hnochild, hparse, hnohelp⟩
  · subst hargs
    rcases hdc : app.defaultCommand with _ | ⟨d, danc⟩
    · simp [Command.run, hfound, hact, hdc, terminalHelp, hhh, printHelpEvents]
    · have hid : d.id = c.id := hdna d danc hdc
      simp [Command.run, hfound, hact, hdc, hid, terminalHelp, hhh, printHelpEvents]
  · subst hargs
    simp [Command.run, hfound, hnochild, hparse, hnohelp, hact, terminalHelp, hhh,
      printHelpEvents]

/-- Witness for `c7_errhelp_sentinel`: a wrapper whose root has no action,
no default command, and no help handler, run with no arguments. -/
def c7app : Cli := NewCli 0 "Bare" "No action" "1"

theorem c7_errhelp_sentinel_witness :
    getCliFound c7app.rootCommand [] = true ∧
      c7app.rootCommand.actionCallback = none ∧
      c7app.helpHandler = none ∧
      ([] = ([] : List String) ∧ DefaultNotApplicable c7app c7app.rootCommand) ∧
      ((Command.run c7app 1 c7app.rootCommand [] [] {} []).err = some GoErr.errHelp ∧
        (Command.run c7app 1 c7app.rootCommand [] [] {} []).err ≠ none ∧
        (∃ w, (⟨w, OutData.helpFor (commandPath c7app.rootCommand [])⟩ : OutEv)
            ∈ (Command.run c7app 1 c7app.rootCommand [] [] {} []).events) ∧
        (Command.run c7app 1 c7app.rootCommand [] [] {} []).acts = []) :=
  ⟨by decide, rfl, rfl, ⟨rfl, fun d danc h => by simp [c7app, NewCli] at h⟩,
    c7_errhelp_sentinel c7app 0 c7app.rootCommand [] [] {} [] (by decide) rfl rfl
      (Or.inl ⟨rfl, fun d danc h => by simp [c7app, NewCli] at h⟩)⟩

/-! ### C8 — registering a flag twice: last write wins -/

/-- C8: registering a flag twice under one name leaves exactly one effective
declaration — the schema after the double registration equals the schema
with only the second registration, so the second declaration's default and
external storage are the ones bound by every subsequent parse at that node
(and no uniqueness error exists to be raised). -/
theorem c8_last_registration_wins (fs : FlagSet) (n d1 d2 : String)
    (v1 v2 : FlagVal) (p1 p2 : Option (FKind × Nat)) (st : Heap) (ctx : Ctx)
    (path : String) (args : List String) :
    addFlag (addFlag fs n d1 v1 p1) n d2 v2 p2 = addFlag fs n d2 v2 p2 ∧
      parseFlags (addFlag (addFlag fs n d1 v1 p1) n d2 v2 p2) st ctx path args
        = parseFlags (addFlag fs n d2 v2 p2) st ctx path args := by
  have h : addFlag (addFlag fs n d1 v1 p1) n d2 v2 p2 = addFlag fs n d2 v2 p2 :=
    setA_setA fs n _ _
  exact ⟨h, by rw [h]⟩

/-! ### C9 — child-name uniqueness under AddCommand -/

/-- Name uniqueness of a list of strings, as a boolean. -/
def nodupNamesB : List String → Bool
  | [] => true
  | n :: rest => !rest.contains n && nodupNamesB rest

/-- The claimed invariant of C9 for one node: the ordered child list has at
most one child per name, every listed child is reachable from the name map
under its own name, and every mapped name points (by identity) to a child in
the list. -/
def childrenConsistentB (c : Command) : Bool :=
  nodupNamesB (c.subCommands.map Command.name) &&
    c.subCommands.all (fun ch =>
      match lookupA c.subCommandsMap ch.name with
      | some ch' => ch'.id = ch.id
      | none => false) &&
    c.subCommandsMap.all (fun p => c.subCommands.any (fun ch => ch.id = p.2.id))

/-- Two distinct fresh nodes that share the name `x`. -/
def c9first : Command := NewCommand 1 "x" "first"

def c9second : Command := NewCommand 2 "x" "second"

/-- A root to which both same-named children have been added. -/
def c9bad : Command := ((NewCommand 0 "root" "").AddCommand c9first).AddCommand c9second

/-- C9 (counterexample): `AddCommand` performs no uniqueness check — after
adding two children named `x`, the ordered child list contains both (two
entries with one name), so the claimed per-node invariant fails on a
concrete, reachable tree. -/
theorem c9_counterexample :
    childrenConsistentB c9bad = false ∧
      (c9bad.subCommands.map Command.name) = ["x", "x"] ∧
      lookupA c9bad.subCommandsMap "x" = some c9second := by
  refine ⟨?_, rfl, rfl⟩
  decide

/-- Does every map entry of `c` point (by identity) to some listed child? -/
def mapPointsIntoList (c : Command) : Bool :=
  c.subCommandsMap.all (fun p => c.subCommands.any (fun ch => ch.id = p.2.id))

/-- C9 (amended): `AddCommand` appends the child to the ordered list
unconditionally and registers it in the name map with last-write-wins
semantics, so the list may hold several children sharing one name while the
map names the most recently added one; the map always keeps pointing (by
identity) into the list.  (`NewSubCommand` is `AddCommand` of a fresh
node.) -/
theorem c9_addcommand_amended (c cmd : Command)
    (h : mapPointsIntoList c = true) :
    (c.AddCommand cmd).subCommands = c.subCommands ++ [cmd] ∧
      (c.AddCommand cmd).subCommandsMap = setA c.subCommandsMap cmd.name cmd ∧
      mapPointsIntoList (c.AddCommand cmd) = true := by
  obtain ⟨i, ha, nm, sd, ld, subs, smap, act, hid, fl⟩ := c
  refine ⟨rfl, rfl, ?_⟩
  simp only [mapPointsIntoList, Command.AddCommand, Command.subCommands,
    Command.subCommandsMap, List.all_eq_true, List.any_eq_true] at h ⊢
  intro p hp
  rcases mem_setA hp with hpq | hpq
  · exact ⟨cmd, by simp [hpq]⟩
  · rcases h p hpq with ⟨ch, hch, hid'⟩
    exact ⟨ch, by simp [List.mem_append.mpr (Or.inl hch)], hid'⟩

/-- Witness for `c9_addcommand_amended` at the concrete duplicate-name
scenario. -/
theorem c9_addcommand_amended_witness :
    mapPointsIntoList ((NewCommand 0 "root" "").AddCommand c9first) = true ∧
      (c9bad.subCommands = ((NewCommand 0 "root" "").AddCommand c9first).subCommands ++ [c9second] ∧
        c9bad.subCommandsMap
          = setA ((NewCommand 0 "root" "").AddCommand c9first).subCommandsMap c9second.name c9second ∧
        mapPointsIntoList c9bad = true) :=
  ⟨by decide, c9_addcommand_amended ((NewCommand 0 "root" "").AddCommand c9first) c9second
    (by decide)⟩

/-! ### C10 — unsupported default kinds register nothing -/

theorem lookupA_map_snd {α β : Type} (f : α → β) :
    ∀ (l : List (String × α)) (k : String),
      lookupA (l.map (fun p => (p.1, f p.2))) k = (lookupA l k).map f := by
  intro l k
  induction l with
  | nil => simp [lookupA]
  | cons p rest ih =>
    obtain ⟨k', v⟩ := p
    by_cases hk : k' = k
    · simp [lookupA, hk]
    · simp [lookupA, hk, ih]

theorem nodup_keys_eq {α : Type} {l : List (String × α)} {k : String} {v v' : α}
    (hnd : (l.map Prod.fst).Nodup) (h1 : (k, v) ∈ l) (h2 : (k, v') ∈ l) : v = v' := by
  induction l with
  | nil => simp at h1
  | cons p rest ih =>
    simp only [List.map_cons, List.nodup_cons] at hnd
    rcases List.mem_cons.mp h1 with h1' | h1' <;> rcases List.mem_cons.mp h2 with h2' | h2'
    · exact (Prod.mk.inj (h1'.trans h2'.symm)).2
    · exfalso
      apply hnd.1
      rw [← h1']
      exact List.mem_map.mpr ⟨(k, v'), h2', rfl⟩
    · exfalso
      apply hnd.1
      rw [← h2']
      exact List.mem_map.mpr ⟨(k, v), h1', rfl⟩
    · exact ih hnd.2 h1' h2'

def cleanFlagName (n : String) : Bool :=
  match n.toList with
  | [] => false
  | b0 :: rest =>
    !(b0 = '-' : Bool) && !(b0 = '=' : Bool) && (b0 :: rest).all (fun c => !(c = '=' : Bool))

theorem splitEqList_clean : ∀ (l : List Char), l.all (fun c => !(c = '=' : Bool)) = true →
    splitEqList l = (l, none) := by
  intro l
  induction l with
  | nil => intro _; rfl
  | cons c rest ih =>
    intro h
    simp only [List.all_cons, Bool.and_eq_true, Bool.not_eq_true'] at h
    have hc : ¬ c = '=' := by simpa using h.1
    simp only [splitEqList, if_neg hc]
    rw [ih (by simpa using h.2)]

theorem mk_toList (s : String) : String.mk s.toList = s := by
  cases s
  rfl

theorem parseTok_clean (n : String) (hclean : cleanFlagName n = true) :
    parseTok ("--" ++ n) = Tok.flag n none := by
  obtain ⟨b0, brest, hnl⟩ : ∃ b0 brest, n.toList = b0 :: brest := by
    rcases hl : n.toList with _ | ⟨b0, brest⟩
    · rw [cleanFlagName, hl] at hclean
      exact absurd hclean (by simp)
    · exact ⟨b0, brest, rfl⟩
  have hcl := hclean
  rw [cleanFlagName, hnl] at hcl
  simp only [Bool.and_eq_true, Bool.not_eq_true', decide_eq_false_iff_not] at hcl
  obtain ⟨⟨hb0d, hb0e⟩, hnoeq⟩ := hcl
  have hs : ("--" ++ n).toList = '-' :: '-' :: b0 :: brest := by
    have hd : ("--" ++ n).data = "--".data ++ n.data := String.data_append "--" n
    simp only [String.toList] at hnl ⊢
    rw [hd, hnl]
    rfl
  have hsplit : splitEqList (b0 :: brest) = (b0 :: brest, none) :=
    splitEqList_clean _ hnoeq
  have hmk : String.mk (b0 :: brest) = n := by
    rw [← hnl]
    exact mk_toList n
  have hdata : n.data = b0 :: brest := hnl
  simp [parseTok, hs, hdata, hb0d, hb0e, hsplit, hmk]

theorem bind_lookup_none (n : String) :
    ∀ (fs : FlagSet) (f0 : List (String × BoundFlag)) (l0 : List (String × FlagVal))
      (h : Heap),
      (∀ p ∈ fs, (p.2).name = n → kindOf (p.2).value = none) →
      lookupA f0 n = none →
      lookupA ((fs.foldl (fun acc p => bindProto p.2 acc) (f0, l0, h)).1) n = none := by
  intro fs
  induction fs with
  | nil => intro f0 l0 h _ hf0; simpa [List.foldl] using hf0
  | cons p rest ih =>
    intro f0 l0 h hall hf0
    simp only [List.foldl_cons]
    have hall' : ∀ q ∈ rest, (q.2).name = n → kindOf (q.2).value = none := by
      intro q hq
      exact hall q (List.mem_cons_of_mem _ hq)
    rcases hkind : kindOf (p.2).value with _ | k
    · have hb : bindProto p.2 (f0, l0, h) = (f0, l0, h) := by
        simp [bindProto, hkind]
      rw [hb]
      exact ih f0 l0 h hall' hf0
    · have hname : (p.2).name ≠ n := by
        intro he
        have hc := hall p (List.mem_cons_self _ _) he
        rw [hkind] at hc
        exact Option.noConfusion hc
      rcases hpm : ptrMatches k (p.2).ptr with _ | q
      · have hb : bindProto p.2 (f0, l0, h)
            = (f0 ++ [((p.2).name, ⟨k, .loc⟩)], l0 ++ [((p.2).name, (p.2).value)], h) := by
          simp [bindProto, hkind, hpm]
        rw [hb]
        refine ih _ _ _ hall' ?_
        rw [lookupA_append, hf0]
        simp [lookupA, hname]
      · have hb : bindProto p.2 (f0, l0, h)
            = (f0 ++ [((p.2).name, ⟨k, .ext q⟩)], l0, heapSet h q (p.2).value) := by
          simp [bindProto, hkind, hpm]
        rw [hb]
        refine ih _ _ _ hall' ?_
        rw [lookupA_append, hf0]
        simp [lookupA, hname]

theorem c10_unsupported_kind_registers_nothing (fs : FlagSet) (n : String)
    (proto : FlagProto) (st : Heap) (ctx : Ctx) (path : String)
    (hkeys : ∀ p ∈ fs, (p.2).name = p.1)
    (hnodup : (fs.map Prod.fst).Nodup)
    (hlook : lookupA fs n = some proto)
    (hother : proto.value = FlagVal.other)
    (hnhelp : n ≠ "help") (hnh : n ≠ "h")
    (hclean : cleanFlagName n = true) :
    lookupA (bindFlags fs st).1 n = none ∧
      (∀ rest, parseFlags fs st ctx path (("--" ++ n) :: rest)
          = ((bindFlags fs st).2.2, [⟨writerOf ctx, OutData.flagUsage path⟩],
              Sum.inr (ParseErr.unknown n))) ∧
      (∀ args st1 evs1 ctx1,
        parseFlags fs st ctx path args = (st1, evs1, Sum.inl ctx1) →
          (∀ fb, StringFlag st1 ctx1 n fb = fb) ∧ (∀ fb, IntFlag st1 ctx1 n fb = fb) ∧
            (∀ fb, FloatFlag st1 ctx1 n fb = fb) ∧ (∀ fb, BoolFlag st1 ctx1 n fb = fb)) := by
  have hall : ∀ p ∈ fs, (p.2).name = n → kindOf (p.2).value = none := by
    intro p hp hpn
    have hk1 : p.1 = n := by rw [← hkeys p hp, hpn]
    have hpmem : (n, p.2) ∈ fs := by
      have hpe : p = (n, p.2) := by rw [← hk1]
      rw [← hpe]
      exact hp
    have hpp : p.2 = proto := nodup_keys_eq hnodup hpmem (lookupA_mem hlook)
    rw [hpp, hother]
    rfl
  have hbindnone : lookupA (bindFlags fs st).1 n = none :=
    bind_lookup_none n fs [] [] st hall rfl
  have hformalnone :
      lookupA ((bindFlags fs st).1 ++ [("help", (⟨.bool, .loc⟩ : BoundFlag))]) n = none := by
    rw [lookupA_append, hbindnone]
    simp only [lookupA]
    rw [if_neg (fun h => hnhelp h.symm)]
  have hptok := parseTok_clean n hclean
  refine ⟨hbindnone, ?_, ?_⟩
  · intro rest
    rcases hbind : bindFlags fs st with ⟨formal0, locals0, h0⟩
    have hlf : lookupA (formal0 ++ [("help", (⟨.bool, .loc⟩ : BoundFlag))]) n = none := by
      rw [hbind] at hformalnone
      exact hformalnone
    have hloop : parseLoop (formal0 ++ [("help", (⟨.bool, .loc⟩ : BoundFlag))])
        (("--" ++ n) :: rest) (locals0 ++ [("help", FlagVal.bool false)]) h0
        = ⟨locals0 ++ [("help", FlagVal.bool false)], h0, rest, some (ParseErr.unknown n)⟩ := by
      simp only [parseLoop, hptok, hlf]
      rw [if_neg (by simp [hnhelp, hnh])]
    simp only [parseFlags, hbind, hloop]
  · intro args st1 evs1 ctx1 hsucc
    rcases hbind : bindFlags fs st with ⟨formal0, locals0, h0⟩
    have hlf : lookupA (formal0 ++ [("help", (⟨.bool, .loc⟩ : BoundFlag))]) n = none := by
      rw [hbind] at hformalnone
      exact hformalnone
    simp only [parseFlags, hbind] at hsucc
    rcases herr : (parseLoop (formal0 ++ [("help", (⟨.bool, .loc⟩ : BoundFlag))]) args
        (locals0 ++ [("help", FlagVal.bool false)]) h0).err with _ | e
    · rw [herr] at hsucc
      simp only [Prod.mk.injEq] at hsucc
      obtain ⟨hst, hev, hctx⟩ := hsucc
      have hctx1 := (Sum.inl.inj hctx).symm
      have hvals : lookupA (((formal0 ++ [("help", (⟨.bool, .loc⟩ : BoundFlag))]).map
          (fun p => (p.1, p.2.cell))) : List (String × Cell)) n = none := by
        rw [lookupA_map_snd BoundFlag.cell, hlf]
        rfl
      have hgvc : getValueCell ctx1 n = none := by
        rw [hctx1]
        simp only [getValueCell, hvals]
      refine ⟨?_, ?_, ?_, ?_⟩ <;> intro fb <;>
        simp [StringFlag, IntFlag, FloatFlag, BoolFlag, flagValue, hgvc]
    · rw [herr] at hsucc
      simp at hsucc

/-- A schema with one declaration whose default value has an unsupported
kind. -/
def c10fs : FlagSet := addFlag [] "x" "unsupported" FlagVal.other none

def c10proto : FlagProto := ⟨"x", "unsupported", FlagVal.other, none⟩

/-- Witness for `c10_unsupported_kind_registers_nothing` at `c10fs`. -/
theorem c10_unsupported_kind_registers_nothing_witness :
    (∀ p ∈ c10fs, (p.2).name = p.1) ∧ ((c10fs.map Prod.fst).Nodup ∧
      lookupA c10fs "x" = some c10proto ∧ c10proto.value = FlagVal.other ∧
      "x" ≠ "help" ∧ "x" ≠ "h" ∧ cleanFlagName "x" = true) ∧
      (lookupA (bindFlags c10fs []).1 "x" = none ∧
        (∀ rest, parseFlags c10fs [] {} "p" (("--" ++ "x") :: rest)
            = ((bindFlags c10fs []).2.2, [⟨writerOf {}, OutData.flagUsage "p"⟩,],
                Sum.inr (ParseErr.unknown "x"))) ∧
        (∀ args st1 evs1 ctx1,
          parseFlags c10fs [] {} "p" args = (st1, evs1, Sum.inl ctx1) →
            (∀ fb, StringFlag st1 ctx1 "x" fb = fb) ∧ (∀ fb, IntFlag st1 ctx1 "x" fb = fb) ∧
              (∀ fb, FloatFlag st1 ctx1 "x" fb = fb) ∧
              (∀ fb, BoolFlag st1 ctx1 "x" fb = fb))) :=
  ⟨by decide, ⟨by decide, by decide, rfl, by decide, by decide, by decide⟩,
    c10_unsupported_kind_registers_nothing c10fs "x" c10proto [] {} "p" (by decide)
      (by decide) (by decide) rfl (by decide) (by decide) (by decide)⟩

/-! ### C2 — buffered runs without external storage do not interfere -/


def CtxLocalOnly (ctx : Ctx) : Prop :=
  ∀ fv, ctx.flagVals = some fv → ∀ p ∈ fv.values, p.2 = Cell.loc

def HeapOblivious (f : ActionF) : Prop :=
  ∀ st st' ctx, CtxLocalOnly ctx → f st ctx = f st' ctx

def FlagsLocal (fs : FlagSet) : Prop := ∀ p ∈ fs, (p.2).ptr = none

def CmdLocalOk (P : Command → Prop) (c : Command) : Prop :=
  FlagsLocal c.flags ∧ (∀ a, c.actionCallback = some a → HeapOblivious a) ∧
    ∀ p ∈ c.subCommandsMap, P p.2

theorem flagValue_heap_free {ctx : Ctx} (h : CtxLocalOnly ctx) (st st' : Heap)
    (n : String) : flagValue st ctx n = flagValue st' ctx n := by
  rcases hfv : ctx.flagVals with _ | fv
  · simp [flagValue, getValueCell, hfv]
  · rcases hlk : lookupA fv.values n with _ | cell
    · simp [flagValue, getValueCell, hfv, hlk]
    · have hc : cell = Cell.loc := h fv hfv (n, cell) (lookupA_mem hlk)
      subst hc
      simp [flagValue, getValueCell, derefCell, hfv, hlk]

theorem HelpFlag_heap_free {ctx : Ctx} (h : CtxLocalOnly ctx) (st st' : Heap) :
    HelpFlag st ctx = HelpFlag st' ctx := by
  simp only [HelpFlag, BoolFlag, flagValue_heap_free h st st']

/-- Binding a schema with no external storage never touches the heap and
produces formal/locals independent of it; every produced formal entry beyond
the accumulator has a call-local cell. -/
theorem bind_local : ∀ (fs : FlagSet), FlagsLocal fs →
    ∀ (f0 : List (String × BoundFlag)) (l0 : List (String × FlagVal)) (h h' : Heap),
      (fs.foldl (fun acc p => bindProto p.2 acc) (f0, l0, h))
        = ((fs.foldl (fun acc p => bindProto p.2 acc) (f0, l0, h')).1,
            (fs.foldl (fun acc p => bindProto p.2 acc) (f0, l0, h')).2.1, h) ∧
      (∀ p ∈ (fs.foldl (fun acc p => bindProto p.2 acc) (f0, l0, h)).1,
        p ∈ f0 ∨ (p.2).cell = Cell.loc) := by
  intro fs
  induction fs with
  | nil =>
    intro _ f0 l0 h h'
    exact ⟨rfl, fun p hp => Or.inl hp⟩
  | cons q rest ih =>
    intro hl f0 l0 h h'
    have hq : (q.2).ptr = none := hl q (List.mem_cons_self _ _)
    have hrest : FlagsLocal rest := fun p hp => hl p (List.mem_cons_of_mem _ hp)
    simp only [List.foldl_cons]
    rcases hkind : kindOf (q.2).value with _ | k
    · have hb : ∀ hh : Heap, bindProto q.2 (f0, l0, hh) = (f0, l0, hh) := by
        intro hh
        simp [bindProto, hkind]
      rw [hb h, hb h']
      exact ih hrest f0 l0 h h'
    · have hb : ∀ hh : Heap, bindProto q.2 (f0, l0, hh)
          = (f0 ++ [((q.2).name, ⟨k, .loc⟩)], l0 ++ [((q.2).name, (q.2).value)], hh) := by
        intro hh
        simp [bindProto, hkind, hq, ptrMatches]
      rw [hb h, hb h']
      obtain ⟨ih1, ih2⟩ := ih hrest (f0 ++ [((q.2).name, ⟨k, .loc⟩)])
        (l0 ++ [((q.2).name, (q.2).value)]) h h'
      refine ⟨ih1, ?_⟩
      intro p hp
      rcases ih2 p hp with hp' | hp'
      · rcases List.mem_append.mp hp' with hp'' | hp''
        · exact Or.inl hp''
        · right
          have : p = ((q.2).name, (⟨k, .loc⟩ : BoundFlag)) := by simpa using hp''
          rw [this]
      · exact Or.inr hp'

/-- The parse loop over a formal map whose cells are all call-local leaves
the heap unchanged, and its locals/residual/error do not depend on it
(auxiliary form, by strong induction on the argument count). -/
theorem parseLoop_local_aux (formal : List (String × BoundFlag))
    (hf : ∀ p ∈ formal, (p.2).cell = Cell.loc) :
    ∀ (n : Nat) (args : List String), args.length ≤ n →
      ∀ (locals : List (String × FlagVal)) (h h' : Heap),
        parseLoop formal args locals h
          = ⟨(parseLoop formal args locals h').locals, h,
              (parseLoop formal args locals h').residual,
              (parseLoop formal args locals h').err⟩ := by
  intro n
  induction n with
  | zero =>
    intro args hlen locals h h'
    have : args = [] := List.length_eq_zero.mp (Nat.le_zero.mp hlen)
    subst this
    rfl
  | succ n ih =>
    intro args hlen locals h h'
    rcases args with _ | ⟨s, rest⟩
    · rfl
    · have hrest : rest.length ≤ n := Nat.le_of_succ_le_succ hlen
      simp only [parseLoop]
      rcases htok : parseTok s with _ | _ | _ | ⟨name, vOpt⟩
      · rfl
      · rfl
      · rfl
      · rcases hlk : lookupA formal name with _ | bf
        · simp only [hlk]
          by_cases hh : name = "help" ∨ name = "h"
          · simp [hh]
          · simp [hh]
        · have hcell : bf.cell = Cell.loc := hf (name, bf) (lookupA_mem hlk)
          simp only [hlk]
          by_cases hb : bf.kind = FKind.bool
          · rcases vOpt with _ | v
            · simp only [hb, if_true, setCell, hcell]
              exact ih rest hrest _ h h'
            · rcases hpb : parseBoolStr v with _ | b
              · simp [hb, hpb]
              · simp only [hb, if_true, hpb, setCell, hcell]
                exact ih rest hrest _ h h'
          · rcases vOpt with _ | v
            · rcases rest with _ | ⟨v2, rest2⟩
              · simp [hb]
              · rcases hpp : parsePrim bf.kind v2 with _ | fv
                · simp [hb, hpp]
                · simp only [hb, if_false, hpp, setCell, hcell]
                  exact ih rest2 (Nat.le_of_succ_le hrest) _ h h'
            · rcases hpp : parsePrim bf.kind v with _ | fv
              · simp [hb, hpp]
              · simp only [hb, if_false, hpp, setCell, hcell]
                exact ih rest hrest _ h h'

/-- `parseLoop_local_aux` at the list's own length. -/
theorem parseLoop_local (formal : List (String × BoundFlag))
    (hf : ∀ p ∈ formal, (p.2).cell = Cell.loc) (args : List String)
    (locals : List (String × FlagVal)) (h h' : Heap) :
    parseLoop formal args locals h
      = ⟨(parseLoop formal args locals h').locals, h,
          (parseLoop formal args locals h').residual,
          (parseLoop formal args locals h').err⟩ :=
  parseLoop_local_aux formal hf args.length args (Nat.le_refl _) locals h h'

/-- `bind_local` restated on `bindFlags`. -/
theorem bindFlags_local (fs : FlagSet) (hfs : FlagsLocal fs) (st st' : Heap) :
    bindFlags fs st = ((bindFlags fs st').1, (bindFlags fs st').2.1, st) ∧
      ∀ p ∈ (bindFlags fs st).1, (p.2).cell = Cell.loc := by
  obtain ⟨h1, h2⟩ := bind_local fs hfs [] [] st st'
  refine ⟨h1, ?_⟩
  intro p hp
  rcases h2 p hp with hfalse | hc
  · exact absurd hfalse (List.not_mem_nil p)
  · exact hc

/-- `parseFlags` over a schema with no external storage: the heap passes
through unchanged, the produced events and outcome do not depend on it, and
a successfully produced scope carries only call-local cells. -/
theorem parseFlags_local (fs : FlagSet) (hfs : FlagsLocal fs) (st st' : Heap)
    (ctx : Ctx) (path : String) (args : List String) :
    parseFlags fs st ctx path args = (st, (parseFlags fs st' ctx path args).2) ∧
      (∀ st1 evs ctx1,
        parseFlags fs st ctx path args = (st1, evs, Sum.inl ctx1) → CtxLocalOnly ctx1) := by
  rcases hB : bindFlags fs st' with ⟨F, L, H⟩
  have hbst : bindFlags fs st = (F, L, st) := by
    rw [(bindFlags_local fs hfs st st').1, hB]
  have hH : H = st' := by
    have hx := (bindFlags_local fs hfs st' st).1
    rw [hB, hbst] at hx
    simp only [Prod.mk.injEq] at hx
    exact hx.2.2
  rw [hH] at hB
  have hFloc' := (bindFlags_local fs hfs st st').2
  rw [hbst] at hFloc'
  simp only at hFloc'
  have hFloc : ∀ p ∈ F ++ [("help", (⟨.bool, .loc⟩ : BoundFlag))],
      (p.2).cell = Cell.loc := by
    intro p hp
    rcases List.mem_append.mp hp with hp' | hp'
    · exact hFloc' p hp'
    · have hpe : p = ("help", (⟨.bool, .loc⟩ : BoundFlag)) := by simpa using hp'
      rw [hpe]
  have hloop := parseLoop_local (F ++ [("help", (⟨.bool, .loc⟩ : BoundFlag))])
    hFloc args (L ++ [("help", FlagVal.bool false)]) st st'
  constructor
  · simp only [parseFlags, hbst, hB]
    rw [hloop]
    rcases herr : (parseLoop (F ++ [("help", (⟨.bool, .loc⟩ : BoundFlag))])
        args (L ++ [("help", FlagVal.bool false)]) st').err with _ | e
    · simp only [herr]
    · simp only [herr]
  · intro st1 evs ctx1 hsucc
    simp only [parseFlags, hbst] at hsucc
    rw [hloop] at hsucc
    rcases herr : (parseLoop (F ++ [("help", (⟨.bool, .loc⟩ : BoundFlag))])
        args (L ++ [("help", FlagVal.bool false)]) st').err with _ | e
    · rw [herr] at hsucc
      simp only [Prod.mk.injEq] at hsucc
      obtain ⟨-, -, hctx⟩ := hsucc
      have hctx1 := (Sum.inl.inj hctx).symm
      intro fv hfv p hp
      rw [hctx1] at hfv
      simp only at hfv
      have hfveq := Option.some.inj hfv
      rw [← hfveq] at hp
      simp only at hp
      rcases List.mem_map.mp hp with ⟨q, hq, hpq⟩
      rw [← hpq]
      exact hFloc q hq
    · rw [herr] at hsucc
      simp at hsucc

/-- `Command.run` on a tree whose reachable nodes declare only local-storage
flags, with heap-oblivious actions and help handler: the heap passes through
unchanged, and the events, invoked actions and error are independent of it. -/
theorem run_heap_free (app : Cli) (P : Command → Prop)
    (hinv : ∀ c, P c → CmdLocalOk P c)
    (hdefP : ∀ d danc, app.defaultCommand = some (d, danc) → P d)
    (hhh : ∀ f, app.helpHandler = some f → HeapOblivious f) :
    ∀ (fuel : Nat) (c : Command) (anc : List Command) (ctx : Ctx)
      (args : List String) (st st' : Heap), P c → CtxLocalOnly ctx →
      Command.run app fuel c anc st ctx args
        = ⟨st, (Command.run app fuel c anc st' ctx args).events,
            (Command.run app fuel c anc st' ctx args).acts,
            (Command.run app fuel c anc st' ctx args).err⟩ := by
  intro fuel
  induction fuel with
  | zero => intro c anc ctx args st st' hP hctx; rfl
  | succ fuel ih =>
    intro c anc ctx args st st' hP hctx
    obtain ⟨hfl, hactob, hchildP⟩ := hinv c hP
    simp only [Command.run]
    cases hgf : getCliFound c anc
    · simp [hgf]
    · rcases args with _ | ⟨a, rest⟩
      · simp only [hgf, Bool.true_eq_false, if_false]
        rcases hac : c.actionCallback with _ | act
        · rcases hdc : app.defaultCommand with _ | ⟨d, danc⟩
          · rcases hhh' : app.helpHandler with _ | f
            · simp [terminalHelp, hhh']
            · have hfe := hhh f hhh' st st' ctx hctx
              simp [terminalHelp, hhh', hfe]
          · by_cases hid : d.id = c.id
            · rcases hhh' : app.helpHandler with _ | f
              · simp [hid, terminalHelp, hhh']
              · have hfe := hhh f hhh' st st' ctx hctx
                simp [hid, terminalHelp, hhh', hfe]
            · simp only [ne_eq, hid, not_false_eq_true, if_true]
              exact ih d danc ctx [] st st' (hdefP d danc hdc) hctx
        · have hae := hactob act hac st st' ctx hctx
          simp [hae]
      · simp only [hgf, Bool.true_eq_false, if_false]
        rcases hch : lookupA c.subCommandsMap a with _ | child
        · have hpf := parseFlags_local c.flags hfl st st' ctx (commandPath c anc) (a :: rest)
          rcases hps' : parseFlags c.flags st' ctx (commandPath c anc) (a :: rest)
            with ⟨h1', evs', res'⟩
          have hps : parseFlags c.flags st ctx (commandPath c anc) (a :: rest)
              = (st, evs', res') := by
            rw [hpf.1, hps']
          have hh1' : h1' = st' := by
            have hsw := (parseFlags_local c.flags hfl st' st ctx (commandPath c anc)
              (a :: rest)).1
            rw [hps'] at hsw
            exact congrArg Prod.fst hsw
          rw [hh1'] at hps' ⊢
          simp only [hps]
          rcases res' with ctx1 | e
          · dsimp only
            have hctx1 : CtxLocalOnly ctx1 := hpf.2 st evs' ctx1 hps
            have hhf := HelpFlag_heap_free hctx1 st st'
            cases hhfv : HelpFlag st' ctx1
            · rw [hhf, hhfv]
              simp only [Bool.false_eq_true, if_false]
              rcases hac : c.actionCallback with _ | act
              · rcases hhh' : app.helpHandler with _ | f
                · simp [terminalHelp, hhh']
                · have hfe := hhh f hhh' st st' ctx1 hctx1
                  simp [terminalHelp, hhh', hfe]
              · have hae := hactob act hac st st' ctx1 hctx1
                simp [hae]
            · rw [hhf, hhfv]
              simp
          · dsimp only
            rcases hge : app.errorHandler with _ | handler <;> simp [hge]
        · have hPchild : P child := hchildP (a, child) (lookupA_mem hch)
          exact ih child (c :: anc) ctx rest st st' hPchild hctx

/-- C2: two buffered runs against one configured wrapper whose declared
flags all lack external storage do not interfere.  The hypotheses say: `P`
is an invariant covering the root (and the default command, when set) such
that every `P`-node declares only local-storage flags, has a heap-oblivious
action, and has only `P`-children; the help handler, when present, is
heap-oblivious; and the caller's scope carries no external cells.  The
conclusion: a buffered run leaves the shared heap exactly as it found it,
and its captured output, invoked actions and returned error are the same
for any two heap states — so each call's observable results are a function
only of its own scope and argument list, unaffected by the other call.
Moreover every typed accessor applied to a local-only scope reads the same
value in both heap states (the flag values an action observes). -/
theorem c2_buffered_runs_noninterfere (app : Cli) (P : Command → Prop)
    (hinv : ∀ c, P c → CmdLocalOk P c)
    (hroot : P app.rootCommand)
    (hdefP : ∀ d danc, app.defaultCommand = some (d, danc) → P d)
    (hhh : ∀ f, app.helpHandler = some f → HeapOblivious f)
    (ctx : Ctx) (hctx : CtxLocalOnly ctx)
    (pj : Bool) (args : List String) (bufId : Nat) (st st' : Heap) :
    (app.RunBuffer st ctx pj args bufId).heap = st ∧
      (app.RunBuffer st ctx pj args bufId).out = (app.RunBuffer st' ctx pj args bufId).out ∧
      (app.RunBuffer st ctx pj args bufId).acts
          = (app.RunBuffer st' ctx pj args bufId).acts ∧
      (app.RunBuffer st ctx pj args bufId).err = (app.RunBuffer st' ctx pj args bufId).err ∧
      (∀ ctx1, CtxLocalOnly ctx1 →
        (∀ n fb, StringFlag st ctx1 n fb = StringFlag st' ctx1 n fb) ∧
          (∀ n fb, IntFlag st ctx1 n fb = IntFlag st' ctx1 n fb) ∧
          (∀ n fb, FloatFlag st ctx1 n fb = FloatFlag st' ctx1 n fb) ∧
          (∀ n fb, BoolFlag st ctx1 n fb = BoolFlag st' ctx1 n fb)) := by
  have haccess : ∀ ctx1, CtxLocalOnly ctx1 →
      (∀ n fb, StringFlag st ctx1 n fb = StringFlag st' ctx1 n fb) ∧
        (∀ n fb, IntFlag st ctx1 n fb = IntFlag st' ctx1 n fb) ∧
        (∀ n fb, FloatFlag st ctx1 n fb = FloatFlag st' ctx1 n fb) ∧
        (∀ n fb, BoolFlag st ctx1 n fb = BoolFlag st' ctx1 n fb) := by
    intro ctx1 hctx1
    refine ⟨?_, ?_, ?_, ?_⟩ <;> intro n fb <;>
      simp only [StringFlag, IntFlag, FloatFlag, BoolFlag,
        flagValue_heap_free hctx1 st st' n]
  have hctx2 : CtxLocalOnly { ctx with printJson := some pj, stdout := some bufId } := by
    intro fv hfv
    exact hctx fv hfv
  have hrun := run_heap_free app P hinv hdefP hhh (args.length + 2) app.rootCommand []
    { ctx with printJson := some pj, stdout := some bufId } args st st' hroot hctx2
  rcases hpre : app.preRunCommand with _ | pre
  · simp only [Cli.RunBuffer, Cli.Run, hpre, hrun]
    exact ⟨trivial, trivial, trivial, trivial, haccess⟩
  · rcases hpc : pre { ctx with printJson := some pj, stdout := some bufId } with _ | e
    · simp only [Cli.RunBuffer, Cli.Run, hpre, hpc, hrun]
      exact ⟨trivial, trivial, trivial, trivial, haccess⟩
    · simp only [Cli.RunBuffer, Cli.Run, hpre, hpc]
      exact ⟨trivial, trivial, trivial, trivial, haccess⟩

/-- A heap-oblivious action: prints a constant to the scope's output. -/
def c2act : ActionF := fun _ ctx => ([⟨writerOf ctx, .text "hi"⟩], none)

/-- A wrapper with one local-storage string flag and `c2act` as root action. -/
def c2app : Cli :=
  { NewCli 0 "Iso" "Isolation" "1" with
    rootCommand :=
      ((NewCli 0 "Iso" "Isolation" "1").rootCommand.StringFlag "fmt" "Format" "" none).Action
        (some c2act) }

/-- Witness for `c2_buffered_runs_noninterfere` at `c2app`, with the
invariant "is the root node" and two visibly different heaps. -/
theorem c2_buffered_runs_noninterfere_witness :
    (∀ c, c = c2app.rootCommand → CmdLocalOk (fun c => c = c2app.rootCommand) c) ∧
      c2app.rootCommand = c2app.rootCommand ∧
      (∀ d danc, c2app.defaultCommand = some (d, danc) → d = c2app.rootCommand) ∧
      (∀ f, c2app.helpHandler = some f → HeapOblivious f) ∧
      CtxLocalOnly {} ∧
      ((c2app.RunBuffer [(3, FlagVal.int 5)] {} false ["--fmt", "x"] 0).heap
          = [(3, FlagVal.int 5)] ∧
        (c2app.RunBuffer [(3, FlagVal.int 5)] {} false ["--fmt", "x"] 0).out
            = (c2app.RunBuffer [] {} false ["--fmt", "x"] 0).out ∧
        (c2app.RunBuffer [(3, FlagVal.int 5)] {} false ["--fmt", "x"] 0).acts
            = (c2app.RunBuffer [] {} false ["--fmt", "x"] 0).acts ∧
        (c2app.RunBuffer [(3, FlagVal.int 5)] {} false ["--fmt", "x"] 0).err
            = (c2app.RunBuffer [] {} false ["--fmt", "x"] 0).err ∧
        (∀ ctx1, CtxLocalOnly ctx1 →
          (∀ n fb, StringFlag [(3, FlagVal.int 5)] ctx1 n fb = StringFlag [] ctx1 n fb) ∧
            (∀ n fb, IntFlag [(3, FlagVal.int 5)] ctx1 n fb = IntFlag [] ctx1 n fb) ∧
            (∀ n fb, FloatFlag [(3, FlagVal.int 5)] ctx1 n fb = FloatFlag [] ctx1 n fb) ∧
            (∀ n fb, BoolFlag [(3, FlagVal.int 5)] ctx1 n fb = BoolFlag [] ctx1 n fb))) := by
  have hinv : ∀ c, c = c2app.rootCommand →
      CmdLocalOk (fun c => c = c2app.rootCommand) c := by
    intro c hc
    subst hc
    refine ⟨?_, ?_, ?_⟩
    · intro p hp
      have hp' : p ∈ [(("fmt" : String),
          (⟨"fmt", "Format", FlagVal.str "", none⟩ : FlagProto))] := hp
      have hpe := List.mem_singleton.mp hp'
      rw [hpe]
    · intro a ha
      cases Option.some.inj ha
      intro st st' ctx _
      rfl
    · intro p hp
      exact absurd hp (List.not_mem_nil p)
  have hdef : ∀ d danc, c2app.defaultCommand = some (d, danc) → d = c2app.rootCommand :=
    fun d danc h => Option.noConfusion h
  have hh : ∀ f, c2app.helpHandler = some f → HeapOblivious f :=
    fun f h => Option.noConfusion h
  have hctx : CtxLocalOnly {} := fun fv hfv => nomatch hfv
  exact ⟨hinv, rfl, hdef, hh, hctx,
    c2_buffered_runs_noninterfere c2app (fun c => c = c2app.rootCommand) hinv rfl hdef hh
      {} hctx false ["--fmt", "x"] 0 [(3, FlagVal.int 5)] []⟩
